import Mathlib

set_option maxRecDepth 20000

/-!
Shallow embedding of the media-access logging middleware in
`server/middlewares/log_filter.go` (package `middlewares`): the extension
registry, the request classifier of `MediaLoggerMiddleware`, the JSON envelope
decoding used by `handleFSListRequest` / `handleFSGetRequest`, the
`responseBodyWriter` capture decorator, the request-body capture round trip,
and the rendered-text fallback filter `LoggerFilterWriter.Write`.

Strings model Go byte slices / strings; all log content involved is ASCII, so
character-wise operations coincide with Go's byte-wise ones.  `Char.toLower`
models `strings.ToLower` (the registry entries and all comparisons are ASCII,
where the two agree).  Paths use `/` as the separator, as on the deployment
platform.
-/

namespace OpenList

/-- Go `strings.HasPrefix` on character lists: `chStarts l pre` is true iff
`l` begins with `pre`. -/
def chStarts : List Char → List Char → Bool
  | _, [] => true
  | [], _ :: _ => false
  | a :: as, b :: bs => a == b && chStarts as bs

/-- Go `strings.HasPrefix(s, pre)`. -/
def strStartsWith (s pre : String) : Bool :=
  chStarts s.data pre.data

/-- Test a predicate at every position (suffix) of a character list; used to
model regexp searching anywhere in a line. -/
def anySuffix (p : List Char → Bool) : List Char → Bool
  | [] => p []
  | c :: rest => p (c :: rest) || anySuffix p rest

/-- Go `strings.Contains(s, sub)`: some position of `s` starts with `sub`. -/
def containsSubstr (s sub : String) : Bool :=
  anySuffix (fun l => chStarts l sub.data) s.data

/-- Go `strings.HasSuffix` on character lists. -/
def chEndsWith (l tail : List Char) : Bool :=
  chStarts l.reverse tail.reverse

/-- Whitespace class of Go's regexp `\s`: tab, newline, form feed, carriage
return, space. -/
def goIsSpace (c : Char) : Bool :=
  c == ' ' || c == '\t' || c == '\n' || c == '\x0c' || c == '\r'

/-- Consume an exact literal from the front of a list, returning the rest. -/
def dropLit : List Char → List Char → Option (List Char)
  | l, [] => some l
  | [], _ :: _ => none
  | a :: as, b :: bs => if a == b then dropLit as bs else none

/-- Go `strings.ToLower`, restricted to ASCII case folding (all registry
entries and comparisons in the source are ASCII). -/
def toLowerStr (s : String) : String :=
  String.mk (s.data.map Char.toLower)

/-- Scan a reversed path for the extension: Go `filepath.Ext` walks backwards
from the end of the path until a path separator, returning the suffix that
starts at the first `.` encountered, or the empty string. `acc` holds the
characters already passed (in forward order). -/
def extFromRev : List Char → List Char → String
  | [], _ => ""
  | c :: rest, acc =>
    if c == '/' then ""
    else if c == '.' then String.mk (c :: acc)
    else extFromRev rest (c :: acc)

/-- Go `filepath.Ext(path)` (Unix separator). -/
def filepathExt (p : String) : String :=
  extFromRev p.data.reverse []

/-- The `mediaExtensions` map of `log_filter.go`: the recognized media file
extensions, lowercase and dot-prefixed.  Modelled as a list; the Go map is
used only for membership tests and (dot-stripped) enumeration, where order is
irrelevant. -/
def mediaExtensions : List String :=
  [".jpg", ".jpeg", ".png", ".gif", ".bmp", ".webp", ".svg", ".tiff",
   ".ico", ".heic",
   ".mp4", ".avi", ".mkv", ".mov", ".wmv", ".flv", ".webm", ".m4v",
   ".mpg", ".mpeg", ".3gp", ".rm", ".rmvb", ".ts", ".m3u8"]

/-- Membership test `mediaExtensions[ext]` (a missing key yields `false`). -/
def isMediaExt (e : String) : Bool :=
  mediaExtensions.contains e

/-- Go `isMediaFileName(filename)`: lower-cased `filepath.Ext` is in the
registry. -/
def isMediaFileName (filename : String) : Bool :=
  isMediaExt (toLowerStr (filepathExt filename))

/-- Go `isMediaFilePath(path)`: identical to `isMediaFileName` in the
source, kept separate as there. -/
def isMediaFilePath (path : String) : Bool :=
  isMediaExt (toLowerStr (filepathExt path))

/-- The `ignoredPaths` slice: static-asset and health-check path prefixes
that are never logged. -/
def ignoredPaths : List String :=
  ["/assets/", "/images/", "/favicon.ico", "/robots.txt", "/ping"]

/-- The five-way request category of the spec's RequestClassifier. -/
inductive Category where
  | Ignored
  | DirectMedia
  | ListQuery
  | GetQuery
  | Other
deriving DecidableEq, Repr

/-- The classification decision sequence of `MediaLoggerMiddleware`, in the
source's order: ignored prefixes first, then the direct media-extension
check, then the two special API endpoints, and everything else (other API
calls and all remaining paths) is not logged. -/
def classify (path : String) : Category :=
  if ignoredPaths.any (fun pre => strStartsWith path pre) then .Ignored
  else if isMediaFilePath path then .DirectMedia
  else if strStartsWith path "/api/" then
    if path = "/api/fs/list" || strStartsWith path "/api/fs/list?" then .ListQuery
    else if path = "/api/fs/get" || strStartsWith path "/api/fs/get?" then .GetQuery
    else .Other
  else .Other

/-- Go struct `fsObject`: one entry of a file-system response payload. -/
structure fsObject where
  name : String
  path : String
  type : Int
deriving DecidableEq, Repr

/-- Go struct `fsListResponse`: the envelope of a `/api/fs/list` reply. -/
structure fsListResponse where
  code : Int
  content : List fsObject
deriving DecidableEq, Repr

/-- Go struct `fsGetResponse`: the envelope of a `/api/fs/get` reply. -/
structure fsGetResponse where
  code : Int
  data : fsObject
deriving DecidableEq, Repr

/-- JSON values, covering the envelope shapes the middleware decodes.
Numbers are modelled as integers: the only numeric envelope fields (`code`,
`type`) are integral. -/
inductive Json where
  | null
  | bool (b : Bool)
  | num (n : Int)
  | str (s : String)
  | arr (elems : List Json)
  | obj (fields : List (String × Json))

/-- Drop JSON insignificant whitespace. -/
def skipWs : List Char → List Char
  | [] => []
  | c :: rest =>
    if c == ' ' || c == '\t' || c == '\n' || c == '\r' then skipWs rest
    else c :: rest

/-- Read a string literal body up to the closing quote (the opening quote is
already consumed).  Escape sequences are outside the modelled subset: none of
the envelope payloads involved use them. -/
def takeStrLit : List Char → Option (List Char × List Char)
  | [] => none
  | c :: rest =>
    if c == '"' then some ([], rest)
    else if c == '\\' then none
    else
      match takeStrLit rest with
      | some (s, r) => some (c :: s, r)
      | none => none

/-- Split a leading run of decimal digits. -/
def takeDigits : List Char → List Char × List Char
  | [] => ([], [])
  | c :: rest =>
    if c.isDigit then
      let (d, r) := takeDigits (rest)
      (c :: d, r)
    else ([], c :: rest)

/-- Numeric value of a digit run. -/
def digitsToNat (ds : List Char) : Nat :=
  ds.foldl (fun a c => a * 10 + (c.toNat - 48)) 0

mutual

/-- Recursive-descent JSON value parse with explicit fuel (the fuel passed by
`parseJson` always suffices for terminating inputs). -/
def parseVal : Nat → List Char → Option (Json × List Char)
  | 0, _ => none
  | fuel + 1, l =>
    match skipWs l with
    | [] => none
    | '"' :: rest =>
      match takeStrLit rest with
      | some (s, r) => some (.str (String.mk s), r)
      | none => none
    | '{' :: rest =>
      match skipWs rest with
      | '}' :: r => some (.obj [], r)
      | r => match parseMems fuel r with
             | some (ms, r2) => some (.obj ms, r2)
             | none => none
    | '[' :: rest =>
      match skipWs rest with
      | ']' :: r => some (.arr [], r)
      | r => match parseElems fuel r with
             | some (es, r2) => some (.arr es, r2)
             | none => none
    | '-' :: rest =>
      match takeDigits rest with
      | ([], _) => none
      | (ds, r) => some (.num (-(digitsToNat ds : Int)), r)
    | 't' :: rest =>
      match dropLit rest ['r', 'u', 'e'] with
      | some r => some (.bool true, r)
      | none => none
    | 'f' :: rest =>
      match dropLit rest ['a', 'l', 's', 'e'] with
      | some r => some (.bool false, r)
      | none => none
    | 'n' :: rest =>
      match dropLit rest ['u', 'l', 'l'] with
      | some r => some (.null, r)
      | none => none
    | c :: rest =>
      if c.isDigit then
        match takeDigits (c :: rest) with
        | ([], _) => none
        | (ds, r) => some (.num (digitsToNat ds : Int), r)
      else none

/-- Parse one or more comma-separated array elements, then the closing
bracket. -/
def parseElems : Nat → List Char → Option (List Json × List Char)
  | 0, _ => none
  | fuel + 1, l =>
    match parseVal fuel l with
    | none => none
    | some (j, r) =>
      match skipWs r with
      | ',' :: r2 =>
        match parseElems fuel r2 with
        | some (es, r3) => some (j :: es, r3)
        | none => none
      | ']' :: r2 => some ([j], r2)
      | _ => none

/-- Parse one or more comma-separated `"key": value` members, then the
closing brace. -/
def parseMems : Nat → List Char → Option (List (String × Json) × List Char)
  | 0, _ => none
  | fuel + 1, l =>
    match skipWs l with
    | '"' :: rest =>
      match takeStrLit rest with
      | none => none
      | some (k, r) =>
        match skipWs r with
        | ':' :: r2 =>
          match parseVal fuel r2 with
          | none => none
          | some (v, r3) =>
            match skipWs r3 with
            | ',' :: r4 =>
              match parseMems fuel r4 with
              | some (ms, r5) => some ((String.mk k, v) :: ms, r5)
              | none => none
            | '}' :: r4 => some ([(String.mk k, v)], r4)
            | _ => none
        | _ => none
    | _ => none

end

/-- Whole-input JSON parse: models the syntactic validity check of
`encoding/json.Unmarshal` (trailing whitespace allowed, nothing else).
Returns `none` on syntactically invalid bytes, including truncated payloads. -/
def parseJson (s : String) : Option Json :=
  match parseVal (2 * s.length + 8) s.data with
  | some (j, rest) => if skipWs rest = [] then some j else none
  | none => none

/-- Field-wise decode of a JSON object member into an `fsObject`, following
`encoding/json`: members are processed in input order, a member of the wrong
type is skipped (the field keeps its previous value) and flags an error,
`null` members and unknown keys are ignored without error. -/
def decObjField (acc : fsObject × Bool) : String × Json → fsObject × Bool
  | ("name", Json.str s) => ({ acc.1 with name := s }, acc.2)
  | ("name", Json.null) => acc
  | ("name", _) => (acc.1, false)
  | ("path", Json.str s) => ({ acc.1 with path := s }, acc.2)
  | ("path", Json.null) => acc
  | ("path", _) => (acc.1, false)
  | ("type", Json.num n) => ({ acc.1 with type := n }, acc.2)
  | ("type", Json.null) => acc
  | ("type", _) => (acc.1, false)
  | _ => acc

/-- Decode a JSON value into an `fsObject` (zero value `{"", "", 0}` for
anything that is not an object), returning the decoded value together with
an `ok` flag that is the complement of Go's returned error. -/
def decodeFsObject (j : Json) : fsObject × Bool :=
  match j with
  | Json.obj fields => fields.foldl decObjField (⟨"", "", 0⟩, true)
  | Json.null => (⟨"", "", 0⟩, true)
  | _ => (⟨"", "", 0⟩, false)

/-- Field-wise decode of a JSON object member into an `fsListResponse`
envelope, with the same `encoding/json` conventions as `decObjField`. -/
def decListField (acc : fsListResponse × Bool) : String × Json → fsListResponse × Bool
  | ("code", Json.num n) => ({ acc.1 with code := n }, acc.2)
  | ("code", Json.null) => acc
  | ("code", _) => (acc.1, false)
  | ("content", Json.arr es) =>
    let decoded := es.map decodeFsObject
    ({ acc.1 with content := decoded.map Prod.fst },
     acc.2 && decoded.all Prod.snd)
  | ("content", Json.null) => acc
  | ("content", _) => (acc.1, false)
  | _ => acc

/-- Decode a JSON value into an `fsListResponse` (zero value for a
non-object). -/
def decodeFsList (j : Json) : fsListResponse × Bool :=
  match j with
  | Json.obj fields => fields.foldl decListField (⟨0, []⟩, true)
  | Json.null => (⟨0, []⟩, true)
  | _ => (⟨0, []⟩, false)

/-- Field-wise decode of a JSON object member into an `fsGetResponse`
envelope. -/
def decGetField (acc : fsGetResponse × Bool) : String × Json → fsGetResponse × Bool
  | ("code", Json.num n) => ({ acc.1 with code := n }, acc.2)
  | ("code", Json.null) => acc
  | ("code", _) => (acc.1, false)
  | ("data", Json.obj fields) =>
    let d := (Json.obj fields) |> decodeFsObject
    ({ acc.1 with data := d.1 }, acc.2 && d.2)
  | ("data", Json.null) => acc
  | ("data", _) => (acc.1, false)
  | _ => acc

/-- Decode a JSON value into an `fsGetResponse` (zero value for a
non-object). -/
def decodeFsGet (j : Json) : fsGetResponse × Bool :=
  match j with
  | Json.obj fields => fields.foldl decGetField (⟨0, ⟨"", "", 0⟩⟩, true)
  | Json.null => (⟨0, ⟨"", "", 0⟩⟩, true)
  | _ => (⟨0, ⟨"", "", 0⟩⟩, false)

/-- Model of `json.Unmarshal(responseData, &resp)` for `fsListResponse`
(plus the handler's `len(responseData) > 0` guard, whose effect is the same:
the zero value is kept on empty input).  On syntactically invalid bytes the
target keeps its zero value and the error flag is `false`; on valid JSON the
decode is best-effort field by field, exactly as `encoding/json` documents.
The handler in the source discards the error (`_ = json.Unmarshal(...)`) and
continues with the first component. -/
def unmarshalList (s : String) : fsListResponse × Bool :=
  match parseJson s with
  | none => (⟨0, []⟩, false)
  | some j => decodeFsList j

/-- Model of `json.Unmarshal(responseData, &resp)` for `fsGetResponse`;
see `unmarshalList`. -/
def unmarshalGet (s : String) : fsGetResponse × Bool :=
  match parseJson s with
  | none => (⟨0, ⟨"", "", 0⟩⟩, false)
  | some j => decodeFsGet j

/-- One step of the `handleFSListRequest` scan loop over `resp.Content`:
an entry whose name is a media file sets `hasMediaFile` and appends
`item.Path + "/" + item.Name` to `mediaFiles`. -/
def scanStep (acc : Bool × List String) (item : fsObject) : Bool × List String :=
  if isMediaFileName item.name then (true, acc.2 ++ [item.path ++ "/" ++ item.name])
  else acc

/-- The full scan loop of `handleFSListRequest`, starting from
`hasMediaFile = false`, `mediaFiles = []`. -/
def scanContent (items : List fsObject) : Bool × List String :=
  items.foldl scanStep (false, [])

/-- Hit extraction of `handleFSListRequest`: the scan runs only under
`resp.Code == 200 && len(resp.Content) > 0`. -/
def listInspect (resp : fsListResponse) : Bool × List String :=
  if resp.code = 200 ∧ 0 < resp.content.length then scanContent resp.content
  else (false, [])

/-- The display paths of the hits a `ListQuery` response produces (the
`mediaFiles` slice of the source). -/
def listHits (resp : fsListResponse) : List String :=
  (listInspect resp).2

/-- One emitted log record, as produced by `logMediaAccess` (timestamp
omitted: it is read from the wall clock at emission and carries no
information about the decision being verified). -/
structure LogRecord where
  clientIP : String
  displayPath : String
  username : String
deriving DecidableEq, Repr

/-- The records `handleFSListRequest` emits: one `logMediaAccess` call per
entry of `mediaFiles`, guarded by `hasMediaFile`. -/
def listRecords (ip user : String) (resp : fsListResponse) : List LogRecord :=
  if (listInspect resp).1 then (listInspect resp).2.map (fun mp => ⟨ip, mp, user⟩)
  else []

/-- Hit extraction of `handleFSGetRequest`: a single hit whose display path
is `resp.Data.Path` when `resp.Code == 200` and `resp.Data.Name` is a media
file name, and no hit otherwise. -/
def getHits (resp : fsGetResponse) : List String :=
  if resp.code = 200 ∧ isMediaFileName resp.data.name then [resp.data.path]
  else []

/-- The records `handleFSGetRequest` emits: a single `logMediaAccess` call
with `mediaPath := resp.Data.Path` under the same guard. -/
def getRecords (ip user : String) (resp : fsGetResponse) : List LogRecord :=
  if resp.code = 200 ∧ isMediaFileName resp.data.name then
    [⟨ip, resp.data.path, user⟩]
  else []

/-- End-to-end record output of `MediaLoggerMiddleware` for one request:
ignored prefixes and non-special categories emit nothing, a direct media
path emits one record for the request path, and the two JSON endpoints
decode the captured response body and emit their hits.  `responseData` is
the byte content the downstream handler wrote (as captured by
`responseBodyWriter`). -/
def middlewareRecords (ip user path responseData : String) : List LogRecord :=
  match classify path with
  | .Ignored => []
  | .DirectMedia => [⟨ip, path, user⟩]
  | .ListQuery => listRecords ip user (unmarshalList responseData).1
  | .GetQuery => getRecords ip user (unmarshalGet responseData).1
  | .Other => []

/-- Model of `io.ReadAll` on a byte stream (the stream is its remaining
content): returns everything and leaves the stream exhausted. -/
def readAll (r : String) : String × String := (r, "")

/-- Request-body capture of `handleFSListRequest` / `handleFSGetRequest`:
read the body in full, then install `io.NopCloser(bytes.NewBuffer(requestBody))`
as the new body.  Returns (captured bytes, new body stream). -/
def interceptBody (body : String) : String × String :=
  let requestBody := (readAll body).1
  (requestBody, requestBody)

/-- One `Write`/`WriteString` call on `responseBodyWriter`, tracking the
capture buffer and the chunks forwarded to the underlying
`gin.ResponseWriter`: `w.body.Write(b)` appends `b` to the buffer, then the
same `b` is passed on.  (`WriteString` does exactly the same with a string
argument; both are modelled by this one function on string chunks.) -/
def rbWrite (st : String × List String) (b : String) : String × List String :=
  (st.1 ++ b, st.2 ++ [b])

/-- A whole sequence of writes against a fresh `responseBodyWriter`
(`body: &bytes.Buffer{}`). -/
def runWrites (ws : List String) : String × List String :=
  ws.foldl rbWrite ("", [])

/-- Concatenation of a sequence of written chunks (the byte stream the
client would see from an unwrapped writer). -/
def chunksConcat : List String → String
  | [] => ""
  | w :: ws => w ++ chunksConcat ws

/-- One `Write` call on `responseBodyWriter` with the underlying writer's
result made explicit: the buffer grows by `b` unconditionally, and the call
returns exactly what `w.ResponseWriter.Write(b)` returned — a byte count and
a possible error (`none` models a nil error). -/
def rbwWriteU (u : String → Nat × Option String) (buf b : String) :
    String × (Nat × Option String) :=
  (buf ++ b, u b)

/-- A sequence of writes with underlying results, returning the final
capture buffer and the per-call returned results in order. -/
def runWritesU (u : String → Nat × Option String) (ws : List String) :
    String × List (Nat × Option String) :=
  ws.foldl (fun acc b =>
    let r := rbwWriteU u acc.1 b
    (r.1, acc.2 ++ [r.2])) ("", [])

/-- The extension alternation `getMediaExtensions()` feeds into the text
filter's path regexp: the registry entries without their leading dot. -/
def getMediaExtensions : List String :=
  mediaExtensions.map (fun e => e.drop 1)

/-- Match of `listApiRegex` = `POST\s+"/api/fs/list"` at one position: the
literal `POST`, one or more `\s` characters, then the quoted endpoint.
(The greedy `\s+` is exact here because the following literal `"` is not a
whitespace character.) -/
def listApiAt (l : List Char) : Bool :=
  match dropLit l "POST".data with
  | none => false
  | some r =>
    let sp := r.takeWhile goIsSpace
    decide (0 < sp.length) && (dropLit (r.drop sp.length) "\"/api/fs/list\"".data).isSome

/-- Match of `getApiRegex` = `POST\s+"/api/fs/get"` at one position. -/
def getApiAt (l : List Char) : Bool :=
  match dropLit l "POST".data with
  | none => false
  | some r =>
    let sp := r.takeWhile goIsSpace
    decide (0 < sp.length) && (dropLit (r.drop sp.length) "\"/api/fs/get\"".data).isSome

/-- `listApiRegex.MatchString(logLine)`: a match at some position. -/
def listApiFound (s : String) : Bool :=
  anySuffix listApiAt s.data

/-- `getApiRegex.MatchString(logLine)`. -/
def getApiFound (s : String) : Bool :=
  anySuffix getApiAt s.data

/-- Whether a quote-delimited body matches `[^"]+\.(ext1|...|extN)`: it ends
in a dot followed by a registry extension, with at least one character
before the dot. -/
def bodyMatches (body : List Char) : Bool :=
  getMediaExtensions.any (fun e =>
    chEndsWith body ('.' :: e.data) && decide (e.data.length + 1 < body.length))

/-- Match of `pathRegex` = `"([^"]+\.(ext1|...|extN))"` at one position: an
opening quote, then — since `[^"]+` cannot cross a quote — the body runs
exactly to the next quote, and must match the extension tail. -/
def pathRegexAt : List Char → Bool
  | '"' :: rest =>
    let body := rest.takeWhile (fun c => c != '"')
    match rest.drop body.length with
    | '"' :: _ => bodyMatches body
    | _ => false
  | _ => false

/-- `pathRegex.FindStringSubmatch(logLine)` found a match
(`len(matches) > 0`). -/
def pathRegexFound (s : String) : Bool :=
  anySuffix pathRegexAt s.data

/-- `LoggerFilterWriter.Write` (the rendered-text fallback filter): returns
whether the slice was forwarded to the wrapped writer, together with the
`(n, err)` pair returned to the caller.  A forwarded slice is passed to the
underlying writer `u` verbatim and the underlying result is returned; a
suppressed slice is not written anywhere and the call reports
`(len(p), nil)`. -/
def loggerFilterWrite (u : String → Nat × Option String) (p : String) :
    Bool × (Nat × Option String) :=
  if containsSubstr p "[GIN]" then
    if listApiFound p || getApiFound p then
      if pathRegexFound p then (true, u p)
      else (false, (p.length, none))
    else if containsSubstr p "/assets/" || containsSubstr p "/images/" ||
        containsSubstr p "/favicon.ico" then
      (false, (p.length, none))
    else (true, u p)
  else (true, u p)

end OpenList

namespace OpenList

/-- Appending the empty string on the right is the identity. -/
@[simp] lemma strAppendNil (s : String) : s ++ "" = s := by
  cases s with
  | mk d => exact congrArg String.mk (List.append_nil d)

/-- Appending the empty string on the left is the identity. -/
@[simp] lemma strNilAppend (s : String) : "" ++ s = s := by
  cases s with
  | mk d => exact congrArg String.mk (List.nil_append d)

/-- String concatenation is associative. -/
lemma strAppendAssoc (a b c : String) : a ++ b ++ c = a ++ (b ++ c) := by
  cases a with
  | mk da =>
    cases b with
    | mk db =>
      cases c with
      | mk dc => exact congrArg String.mk (List.append_assoc da db dc)

/-- Closed form of the `handleFSListRequest` scan loop from an arbitrary
accumulator: the flag records whether any entry is a media file, and the
collected display paths are the media entries, in list order, rendered as
`path ++ "/" ++ name`. -/
lemma scanContent_fold (items : List fsObject) (b : Bool) (acc : List String) :
    items.foldl scanStep (b, acc) =
      (b || items.any (fun it => isMediaFileName it.name),
       acc ++ (items.filter (fun it => isMediaFileName it.name)).map
         (fun it => it.path ++ "/" ++ it.name)) := by
  induction items generalizing b acc with
  | nil => simp
  | cons it rest ih =>
    by_cases h : isMediaFileName it.name = true
    · simp [scanStep, h, ih, List.filter_cons, List.any_cons]
    · simp [scanStep, h, ih, List.filter_cons, List.any_cons]

/-- C1: for a `ListQuery` response that decodes as a `ListEnvelope`, a 200
code yields exactly the media-named entries of `content`, all of them, in
the envelope's original order, each displayed as `entry.path ++ "/" ++
entry.name`; any other code yields zero hits regardless of content. -/
theorem list_envelope_hits_characterization (resp : fsListResponse) :
    (resp.code = 200 →
      listHits resp =
        (resp.content.filter (fun it => isMediaFileName it.name)).map
          (fun it => it.path ++ "/" ++ it.name)) ∧
    (resp.code ≠ 200 → listHits resp = []) := by
  constructor
  · intro h200
    unfold listHits listInspect
    by_cases hc : 0 < resp.content.length
    · rw [if_pos ⟨h200, hc⟩]
      unfold scanContent
      rw [scanContent_fold]
      simp
    · rw [if_neg (fun hh => hc hh.2)]
      have hnil : resp.content = [] :=
        List.eq_nil_of_length_eq_zero (Nat.eq_zero_of_not_pos hc)
      simp [hnil]
  · intro hne
    unfold listHits listInspect
    rw [if_neg (fun hh => hne hh.1)]

/-- Witness for C1 at the spec's own example envelope. -/
theorem list_envelope_hits_characterization_witness :
    listHits ⟨200, [⟨"a.mp4", "/x", 0⟩, ⟨"a.txt", "/x", 0⟩]⟩ = ["/x/a.mp4"] := by
  have h :=
    (list_envelope_hits_characterization
      ⟨200, [⟨"a.mp4", "/x", 0⟩, ⟨"a.txt", "/x", 0⟩]⟩).1 rfl
  exact h.trans (by rfl)

/-- C2 counterexample: `/images/a.jpg` carries a registered extension
(case-folded `.jpg`), yet the classifier returns `Ignored`, not
`DirectMedia`, because the ignored-prefix check runs first. -/
theorem media_ext_not_always_direct_media :
    isMediaFilePath "/images/a.jpg" = true ∧
    classify "/images/a.jpg" = Category.Ignored ∧
    classify "/images/a.jpg" ≠ Category.DirectMedia := by
  refine ⟨rfl, rfl, ?_⟩
  decide

/-- C2 as amended: for every path that does not start with one of the
ignored prefixes, a trailing extension that case-folds into the registry
(any letter case) classifies the request as `DirectMedia`. -/
theorem media_ext_direct_media_outside_ignored (path : String)
    (hno : ∀ pre ∈ ignoredPaths, strStartsWith path pre = false)
    (hm : isMediaFilePath path = true) :
    classify path = Category.DirectMedia := by
  have hneg : ¬ (ignoredPaths.any (fun pre => strStartsWith path pre) = true) := by
    intro h
    obtain ⟨pre, hmem, hp⟩ := List.any_eq_true.mp h
    rw [hno pre hmem] at hp
    exact Bool.false_ne_true hp
  unfold classify
  rw [if_neg hneg, if_pos hm]

/-- Witness for the amended C2 at an upper-case path. -/
theorem media_ext_direct_media_outside_ignored_witness :
    classify "/D/VIDEO.MP4" = Category.DirectMedia :=
  media_ext_direct_media_outside_ignored "/D/VIDEO.MP4" (by decide) (by rfl)

/-- C3: a path starting with any of the fixed static-asset prefixes
classifies as `Ignored` and the request emits no log record at all,
whatever bytes the response carried; the theorem holds for every path with
such a prefix, in particular for paths ending in a registered media
extension, since the prefix check is evaluated first. -/
theorem ignored_prefix_no_records (path pre : String)
    (hmem : pre ∈ ignoredPaths) (hpre : strStartsWith path pre = true) :
    classify path = Category.Ignored ∧
    ∀ ip user responseData, middlewareRecords ip user path responseData = [] := by
  have hcls : classify path = Category.Ignored := by
    unfold classify
    rw [if_pos (List.any_eq_true.mpr ⟨pre, hmem, hpre⟩)]
  refine ⟨hcls, ?_⟩
  intro ip user responseData
  unfold middlewareRecords
  rw [hcls]

/-- Witness for C3 at a static-asset path that even ends in a media
extension. -/
theorem ignored_prefix_no_records_witness :
    classify "/images/pic.jpg" = Category.Ignored ∧
    middlewareRecords "10.0.0.1" "alice" "/images/pic.jpg" "\x7b\x7d" = [] := by
  have h := ignored_prefix_no_records "/images/pic.jpg" "/images/" (by decide) (by rfl)
  exact ⟨h.1, h.2 "10.0.0.1" "alice" "\x7b\x7d"⟩

/-- C4 counterexample: a 200 `GetEnvelope` whose `data.name` is media but
whose `data.path` is empty produces the hit `""`, not the claimed fallback
`data.name`. -/
theorem get_hit_no_name_fallback :
    getHits ⟨200, ⟨"a.mp4", "", 0⟩⟩ = [""] ∧
    getHits ⟨200, ⟨"a.mp4", "", 0⟩⟩ ≠ ["a.mp4"] := by
  refine ⟨rfl, ?_⟩
  decide

/-- C4 as amended: with `code == 200` and a media `data.name`, exactly one
hit is emitted and its display path is `data.path` unconditionally — there
is no fallback to `data.name` when the path is empty; otherwise zero hits. -/
theorem get_hit_display_is_data_path (resp : fsGetResponse) :
    (resp.code = 200 → isMediaFileName resp.data.name = true →
      getHits resp = [resp.data.path]) ∧
    (¬ (resp.code = 200 ∧ isMediaFileName resp.data.name = true) →
      getHits resp = []) := by
  constructor
  · intro h1 h2
    unfold getHits
    rw [if_pos ⟨h1, h2⟩]
  · intro h
    unfold getHits
    rw [if_neg h]

/-- Witness for the amended C4 at the spec's own example envelope. -/
theorem get_hit_display_is_data_path_witness :
    getHits ⟨200, ⟨"b.mkv", "/y/b.mkv", 0⟩⟩ = ["/y/b.mkv"] :=
  (get_hit_display_is_data_path ⟨200, ⟨"b.mkv", "/y/b.mkv", 0⟩⟩).1 rfl (by rfl)

/-- C5 counterexample: a syntactically valid payload that does not match
the envelope shape (`type` holds a string where an integer is expected, so
`Unmarshal` reports an error, here `ok = false`) is still decoded
best-effort field by field and produces a hit — not the claimed zero hits. -/
theorem shape_mismatch_can_yield_hit :
    (parseJson "\x7b\"code\":200,\"content\":[\x7b\"name\":\"a.mp4\",\"path\":\"/x\",\"type\":\"oops\"\x7d]\x7d").isSome = true ∧
    (unmarshalList "\x7b\"code\":200,\"content\":[\x7b\"name\":\"a.mp4\",\"path\":\"/x\",\"type\":\"oops\"\x7d]\x7d").2 = false ∧
    listHits (unmarshalList "\x7b\"code\":200,\"content\":[\x7b\"name\":\"a.mp4\",\"path\":\"/x\",\"type\":\"oops\"\x7d]\x7d").1 = ["/x/a.mp4"] := by
  exact ⟨rfl, rfl, rfl⟩

/-- C5 as amended: response bytes that are not valid JSON (including
truncated payloads) leave both envelopes at their zero values and yield
zero hits; the decode error is discarded inside the handler (the inspector
returns plainly, with no error channel), so nothing propagates to the
caller.  (Valid JSON with a shape mismatch, by contrast, is decoded
best-effort and may still yield hits.) -/
theorem invalid_json_zero_hits (s : String) (h : parseJson s = none) :
    listHits (unmarshalList s).1 = [] ∧ getHits (unmarshalGet s).1 = [] := by
  unfold unmarshalList unmarshalGet
  rw [h]
  exact ⟨rfl, rfl⟩

/-- Witness for the amended C5 at a truncated payload. -/
theorem invalid_json_zero_hits_witness :
    parseJson "\x7b\"code\":200," = none ∧
    listHits (unmarshalList "\x7b\"code\":200,").1 = [] := by
  refine ⟨rfl, ?_⟩
  exact (invalid_json_zero_hits "\x7b\"code\":200," rfl).1

/-- C6: the capture-then-rewrap of the request body is a byte round trip:
the captured copy equals the bytes the client sent, and the downstream
handler, reading the re-installed body, observes exactly those bytes. -/
theorem request_body_roundtrip (sent : String) :
    (interceptBody sent).1 = sent ∧ (readAll (interceptBody sent).2).1 = sent :=
  ⟨rfl, rfl⟩

/-- Closed form of a write sequence against `responseBodyWriter` from an
arbitrary starting state. -/
lemma runWrites_fold (ws : List String) (buf : String) (sent : List String) :
    ws.foldl rbWrite (buf, sent) = (buf ++ chunksConcat ws, sent ++ ws) := by
  induction ws generalizing buf sent with
  | nil => simp [chunksConcat]
  | cons w ws ih => simp [rbWrite, ih, chunksConcat, strAppendAssoc]

/-- C7: after any sequence of `Write`/`WriteString` calls on the wrapped
response writer, the internal buffer is exactly the concatenation of the
written byte slices, and the chunk sequence forwarded to the underlying
writer is exactly the written sequence, unchanged and in order — identical
to what an unwrapped writer would have received. -/
theorem response_writer_passthrough (ws : List String) :
    (runWrites ws).1 = chunksConcat ws ∧ (runWrites ws).2 = ws := by
  unfold runWrites
  rw [runWrites_fold]
  exact ⟨strNilAppend _, List.nil_append _⟩

/-- C8 helper: a `false` scan flag means the scan collected nothing. -/
lemma listInspect_flag_false (resp : fsListResponse)
    (h : (listInspect resp).1 = false) : (listInspect resp).2 = [] := by
  unfold listInspect at h ⊢
  by_cases hc : resp.code = 200 ∧ 0 < resp.content.length
  · rw [if_pos hc] at h ⊢
    unfold scanContent at h ⊢
    rw [scanContent_fold] at h ⊢
    simp only [Bool.false_or] at h
    have hall : ∀ it ∈ resp.content, ¬ isMediaFileName it.name = true := by
      simpa using h
    simp [List.filter_eq_nil_iff.mpr hall]
  · rw [if_neg hc]

/-- C8: the logger emits exactly one record per hit returned by the
inspector — for `ListQuery` the record list is the hit list rendered
one-to-one, for `GetQuery` likewise — and zero hits produce zero records,
so a hitless request is not logged at all. -/
theorem one_record_per_hit (ip user : String) (resp : fsListResponse)
    (respG : fsGetResponse) :
    listRecords ip user resp =
      (listHits resp).map (fun mp => ⟨ip, mp, user⟩) ∧
    (listHits resp = [] → listRecords ip user resp = []) ∧
    getRecords ip user respG =
      (getHits respG).map (fun mp => ⟨ip, mp, user⟩) ∧
    (getHits respG = [] → getRecords ip user respG = []) := by
  have hlist : listRecords ip user resp =
      (listHits resp).map (fun mp => ⟨ip, mp, user⟩) := by
    unfold listRecords listHits
    by_cases hf : (listInspect resp).1 = true
    · rw [if_pos hf]
    · have hf' : (listInspect resp).1 = false := by
        revert hf
        cases (listInspect resp).1 <;> simp
      rw [if_neg hf, listInspect_flag_false resp hf']
      rfl
  have hget : getRecords ip user respG =
      (getHits respG).map (fun mp => ⟨ip, mp, user⟩) := by
    unfold getRecords getHits
    by_cases hc : respG.code = 200 ∧ isMediaFileName respG.data.name = true
    · rw [if_pos hc, if_pos hc]
      rfl
    · rw [if_neg hc, if_neg hc]
      rfl
  refine ⟨hlist, ?_, hget, ?_⟩
  · intro h
    rw [hlist, h]
    rfl
  · intro h
    rw [hget, h]
    rfl

/-- Witness for C8: a hitless listing emits no record. -/
theorem one_record_per_hit_witness :
    listHits ⟨200, [⟨"a.txt", "/x", 0⟩]⟩ = [] ∧
    listRecords "10.0.0.1" "bob" ⟨200, [⟨"a.txt", "/x", 0⟩]⟩ = [] := by
  refine ⟨rfl, ?_⟩
  exact (one_record_per_hit "10.0.0.1" "bob" ⟨200, [⟨"a.txt", "/x", 0⟩]⟩
    ⟨0, ⟨"", "", 0⟩⟩).2.1 rfl

/-- C9 counterexample: a response is delivered in two chunks and the client
disconnects before the second, so the underlying writer reports an error on
it; the wrapped writer surfaces both results verbatim, yet the capture
buffer holds the complete body (the failed chunk included), and the
handler's inspection of that buffer decodes it and produces a hit — the
partial delivery is neither discarded nor left undecoded. -/
theorem captured_buffer_inspected_after_write_error :
    (runWritesU
        (fun b => if b = "\x7b\"code\":200,\"content\":[" then (23, none)
                  else (0, some "broken pipe"))
        ["\x7b\"code\":200,\"content\":[",
         "\x7b\"name\":\"a.mp4\",\"path\":\"/x\",\"type\":0\x7d]\x7d"]).2 =
      [(23, none), (0, some "broken pipe")] ∧
    listHits (unmarshalList
        (runWritesU
          (fun b => if b = "\x7b\"code\":200,\"content\":[" then (23, none)
                    else (0, some "broken pipe"))
          ["\x7b\"code\":200,\"content\":[",
           "\x7b\"name\":\"a.mp4\",\"path\":\"/x\",\"type\":0\x7d]\x7d"]).1).1 =
      ["/x/a.mp4"] := by
  exact ⟨rfl, rfl⟩

/-- Closed form of a write sequence with explicit underlying results. -/
lemma runWritesU_fold (u : String → Nat × Option String) (ws : List String)
    (buf : String) (rs : List (Nat × Option String)) :
    ws.foldl (fun acc b => (acc.1 ++ b, acc.2 ++ [u b])) (buf, rs) =
      (buf ++ chunksConcat ws, rs ++ ws.map u) := by
  induction ws generalizing buf rs with
  | nil => simp [chunksConcat]
  | cons w ws ih => simp [ih, chunksConcat, strAppendAssoc]

/-- C9 as amended: each `Write` call returns the underlying writer's result
verbatim, so a mid-response error surfaces through the normal return path;
the capture buffer nevertheless keeps every byte passed to `Write`,
including the bytes of failed calls, and that buffer is what the handler
then inspects — a malformed or partial buffer is merely tolerated as "no
hit" by the decode, while a fully buffered body can still produce hits. -/
theorem write_error_surfaces_buffer_kept (u : String → Nat × Option String)
    (ws : List String) :
    (runWritesU u ws).2 = ws.map u ∧ (runWritesU u ws).1 = chunksConcat ws := by
  unfold runWritesU
  simp only [rbwWriteU]
  rw [runWritesU_fold]
  exact ⟨List.nil_append _, strNilAppend _⟩

/-- C10: every call to the text filter's `Write` either forwards the whole
slice verbatim to the wrapped writer, returning the wrapped writer's
result, or forwards nothing while reporting a full successful write
`(len(p), nil)`; and a line without the `[GIN]` marker is always
forwarded. -/
theorem logger_filter_write_all_or_nothing (u : String → Nat × Option String)
    (p : String) :
    (((loggerFilterWrite u p).1 = true ∧ (loggerFilterWrite u p).2 = u p) ∨
      ((loggerFilterWrite u p).1 = false ∧
        (loggerFilterWrite u p).2 = (p.length, none))) ∧
    (containsSubstr p "[GIN]" = false →
      (loggerFilterWrite u p).1 = true ∧ (loggerFilterWrite u p).2 = u p) := by
  constructor
  · unfold loggerFilterWrite
    split
    · split
      · split
        · exact Or.inl ⟨rfl, rfl⟩
        · exact Or.inr ⟨rfl, rfl⟩
      · split
        · exact Or.inr ⟨rfl, rfl⟩
        · exact Or.inl ⟨rfl, rfl⟩
    · exact Or.inl ⟨rfl, rfl⟩
  · intro h
    have hne : ¬ (containsSubstr p "[GIN]" = true) := by
      rw [h]
      exact Bool.false_ne_true
    unfold loggerFilterWrite
    rw [if_neg hne]
    exact ⟨rfl, rfl⟩

/-- Witness for C10 at a plain non-GIN line. -/
theorem logger_filter_write_all_or_nothing_witness :
    (loggerFilterWrite (fun s => (s.length, none)) "hello").1 = true ∧
    (loggerFilterWrite (fun s => (s.length, none)) "hello").2 = (5, none) :=
  (logger_filter_write_all_or_nothing (fun s => (s.length, none)) "hello").2 rfl

end OpenList
